import Mathlib

/-
Verification of the `env` package: a binding engine that loads values from a
key/value environment source into the typed fields of a configuration record,
plus the bundled `assert` test-helper library.

The binding engine itself (entry points, field resolver, record walker, value
converter, error aggregator) is present in the repository only through its
tests and README; its definitions below are modelled from the specification.
The `assert` library is embedded directly from `assert/assert.go`.
-/

namespace Env

/-- Modelled from the spec: the Key/Value Source capability,
`lookup(key: text) -> (value: text, present: bool)` (Go: the `Provider`
interface with `LookupEnv(key string) (value string, ok bool)`); `none`
represents "not present". -/
abbrev Provider := String → Option String

/-- Modelled from the spec: the static in-memory `Map` provider used in tests,
viewed as a lookup capability over an association list. -/
def mapProvider (m : List (String × String)) : Provider :=
  fun k => m.lookup k

/-- Lookup with empty-string fallback: during expansion, a name absent from the
source expands to the empty string. -/
def lookupD (src : Provider) (k : String) : String :=
  (src k).getD ""

/-- The scalar semantic types of leaf fields used by the claims under
verification (integer, boolean, text); the spec's full set also has floating,
duration and custom text-parsable types, which no claim exercises. -/
inductive BaseTy where
  | int
  | bool
  | str
deriving DecidableEq, Repr

/-- A leaf field's semantic type: a scalar, or a sequence of scalars
(the spec supports sequences of any supported scalar type; nested sequences
are not supported). -/
inductive Ty where
  | base (b : BaseTy)
  | seq (b : BaseTy)
deriving DecidableEq, Repr

/-- A scalar value held by (or inside) a leaf field. -/
inductive BaseVal where
  | int (i : Int)
  | bool (b : Bool)
  | str (s : String)
deriving DecidableEq, Repr

/-- A value held by a leaf field of the configuration record: a scalar, or an
ordered sequence of scalars. -/
inductive Value where
  | base (v : BaseVal)
  | seq (vs : List BaseVal)
deriving DecidableEq, Repr

/-- Decimal digits to a natural number, most significant first. -/
def digitsToNat (l : List Char) : Nat :=
  l.foldl (fun n c => n * 10 + (c.toNat - 48)) 0

/-- Modelled from the spec: integer-literal parsing per `strconv` rules
(optional sign, then one or more decimal digits); overflow is not modelled,
the result is an unbounded integer. -/
def parseGoInt (s : String) : Option Int :=
  match s.data with
  | [] => none
  | c :: rest =>
    if c = '+' then
      if rest ≠ [] ∧ rest.all Char.isDigit then some (Int.ofNat (digitsToNat rest)) else none
    else if c = '-' then
      if rest ≠ [] ∧ rest.all Char.isDigit then some (-(Int.ofNat (digitsToNat rest))) else none
    else
      if (c :: rest).all Char.isDigit then some (Int.ofNat (digitsToNat (c :: rest))) else none

/-- Modelled from the spec: boolean-literal parsing per `strconv.ParseBool`. -/
def parseGoBool (s : String) : Option Bool :=
  if s = "1" ∨ s = "t" ∨ s = "T" ∨ s = "TRUE" ∨ s = "true" ∨ s = "True" then some true
  else if s = "0" ∨ s = "f" ∨ s = "F" ∨ s = "FALSE" ∨ s = "false" ∨ s = "False" then some false
  else none

/-- Modelled from the spec: the Value Converter on scalar types — a
deterministic text-to-value mapping using each type's canonical textual
grammar; text is passed through unchanged. -/
def convertBase : BaseTy → String → Option BaseVal
  | .int, s => (parseGoInt s).map BaseVal.int
  | .bool, s => (parseGoBool s).map BaseVal.bool
  | .str, s => some (BaseVal.str s)

/-- Modelled from the spec: splitting around every occurrence of a non-empty
separator (Go: `strings.Split`), fuel-driven over the character list — each
step consumes at least one input character, so fuel equal to the input length
suffices. `acc` holds the current token's characters in reverse. -/
def splitList (sep : List Char) : Nat → List Char → List Char → List (List Char)
  | 0, acc, s => [acc.reverse ++ s]
  | _ + 1, acc, [] => [acc.reverse]
  | fuel + 1, acc, c :: rest =>
    if sep.isPrefixOf (c :: rest) ∧ sep ≠ [] then
      acc.reverse :: splitList sep fuel [] ((c :: rest).drop sep.length)
    else
      splitList sep fuel (c :: acc) rest

/-- Modelled from the spec: `strings.Split` on strings — an empty separator
splits into individual characters, otherwise the text is split around every
occurrence of the separator. -/
def goSplit (sep s : String) : List String :=
  if sep.data = [] then s.data.map (fun c => String.mk [c])
  else (splitList sep.data s.data.length [] s.data).map String.mk

/-- Element-wise conversion of the substrings of a sequence field, each
converted independently with the element's scalar type, preserving order;
fails when any element fails. -/
def convertParts (b : BaseTy) : List String → Option (List BaseVal)
  | [] => some []
  | p :: ps =>
    match convertBase b p with
    | none => none
    | some v =>
      match convertParts b ps with
      | none => none
      | some vs => some (v :: vs)

/-- Modelled from the spec: the Value Converter. For a sequence-typed field the
raw text is split on the configured separator into substrings, each converted
independently with the element type; an empty raw value yields an empty
sequence, not an error. -/
def convert (sep : String) : Ty → String → Option Value
  | .base b, s => (convertBase b s).map Value.base
  | .seq b, s =>
    if s = "" then some (Value.seq []) else
      (convertParts b (goSplit sep s)).map Value.seq

/-- The dollar character that introduces an expansion token. -/
def dollar : Char := '$'

/-- The opening brace character of a bracketed expansion token. -/
def lbrace : Char := Char.ofNat 123

/-- The closing brace character of a bracketed expansion token. -/
def rbrace : Char := Char.ofNat 125

/-- A character allowed in a bare (unbracketed) expansion token name,
per shell-style naming: alphanumeric or underscore. -/
def isNameChar (c : Char) : Bool := c.isAlphanum || c = '_'

/-- Modelled from the spec: single-pass substitution of bracketed and bare
dollar tokens, driven by a fuel counter (each step consumes at least one input
character, so fuel equal to the input length always suffices). A name looked
up in the source is replaced by the source's value verbatim — the substituted
text is never re-scanned, so expansion is not re-entrant. Absent names are
replaced by the empty string via `lookupD`. -/
def expandAux (src : Provider) : Nat → List Char → List Char
  | 0, l => l
  | _ + 1, [] => []
  | fuel + 1, c :: rest =>
    if c = dollar then
      match rest with
      | [] => [c]
      | c2 :: rest2 =>
        if c2 = lbrace then
          match rest2.dropWhile (fun x => x != rbrace) with
          | _ :: rest3 =>
            (lookupD src (String.mk (rest2.takeWhile (fun x => x != rbrace)))).data
              ++ expandAux src fuel rest3
          | [] => c :: c2 :: expandAux src fuel rest2
        else
          let name := rest.takeWhile isNameChar
          if name.isEmpty then c :: expandAux src fuel rest
          else (lookupD src (String.mk name)).data ++ expandAux src fuel (rest.drop name.length)
    else c :: expandAux src fuel rest

/-- Modelled from the spec: environment-style expansion of a whole string
(Go: `os.Expand` with the source's lookup as the mapping). -/
def expandStr (src : Provider) (s : String) : String :=
  String.mk (expandAux src s.data.length s.data)

/-- Modelled from the spec: the call-scoped Option Set — key prefix (empty by
default), sequence separator (single space by default), strict-mode flag (off
by default). The usage-on-error sink is not modelled: no claim under
verification concerns usage rendering. -/
structure Options where
  keyPrefix : String := ""
  sliceSep : String := " "
  strictMode : Bool := false
deriving DecidableEq, Repr

/-- Modelled from the spec: a Field Descriptor for one leaf field —
annotation-declared key name, option set ( `required`, `expand` ), optional
default literal, description, semantic type, and the field's current value. -/
structure Field where
  key : String
  required : Bool := false
  expandOpt : Bool := false
  defaultVal : Option String := none
  descr : String := ""
  ty : Ty
  value : Value
deriving DecidableEq, Repr

/-- Modelled from the spec: a per-field Binding Outcome — either a converted
value written into the field, a typed "not set" failure naming the effective
key, a typed conversion failure carrying key, offending raw text and target
type, or leaving the field untouched (which is not a failure). -/
inductive Outcome where
  | keep
  | write (v : Value)
  | notSet (key : String)
  | convFail (key raw : String) (ty : Ty)
deriving DecidableEq, Repr

/-- Modelled from the spec: steps 4–5 of the Field Resolver, applied once a raw
textual value has been obtained (from the source or from the default tag):
expand if the `expand` option is set, then convert via the Value Converter. -/
def resolveRaw (o : Options) (src : Provider) (f : Field) (k raw : String) : Outcome :=
  let txt := if f.expandOpt then expandStr src raw else raw
  match convert o.sliceSep f.ty txt with
  | some v => .write v
  | none => .convFail k txt f.ty

/-- Modelled from the spec: the Field Resolver. Compute the effective key by
prepending the prefix; look it up; if absent use the default tag when present,
else fail with "not set" when the field is required (explicitly or via strict
mode), else keep the current value with no conversion attempted. -/
def resolveField (o : Options) (src : Provider) (f : Field) : Outcome :=
  let k := o.keyPrefix ++ f.key
  match src k with
  | some raw => resolveRaw o src f k raw
  | none =>
    match f.defaultVal with
    | some d => resolveRaw o src f k d
    | none => if f.required || o.strictMode then .notSet k else .keep

/-- Modelled from the spec: the composite error of one binding pass — the
complete list of offending key names for "not set" failures plus the complete
list of conversion failures, each in traversal order. -/
structure AggErr where
  notSetKeys : List String
  convFails : List (String × String × Ty)
deriving DecidableEq, Repr

/-- The composite error counts as nil (binding succeeded) exactly when both
failure lists are empty. -/
def AggErr.isNil (e : AggErr) : Bool :=
  e.notSetKeys.isEmpty && e.convFails.isEmpty

/-- The empty composite error. -/
def emptyErr : AggErr := ⟨[], []⟩

/-- Apply a Binding Outcome to a field: a written value replaces the field's
value; every other outcome leaves the field exactly as it was. -/
def applyOutcome (f : Field) : Outcome → Field
  | .write v => { f with value := v }
  | _ => f

/-- Modelled from the spec: the Record Walker over the record's leaf fields in
traversal (declaration) order. Nested records contribute their leaf fields at
their position in that order, so the walker is modelled on the flattened leaf
sequence. Every field is visited exactly once, failures are accumulated (never
propagated early), and the updated record plus the composite error is
returned. -/
def loadFields (o : Options) (src : Provider) : List Field → List Field × AggErr
  | [] => ([], emptyErr)
  | f :: fs =>
    let out := resolveField o src f
    let r := loadFields o src fs
    match out with
    | .keep => (f :: r.1, r.2)
    | .write v => ({ f with value := v } :: r.1, r.2)
    | .notSet k => (f :: r.1, ⟨k :: r.2.notSetKeys, r.2.convFails⟩)
    | .convFail k raw ty => (f :: r.1, ⟨r.2.notSetKeys, (k, raw, ty) :: r.2.convFails⟩)

/-- Modelled from the spec: what the caller passed as the binding target —
either an addressable record (struct) pointer carrying leaf fields in
traversal order, or anything else (non-pointer, nil pointer, pointer to a
non-record), which is an invalid target. -/
inductive Target where
  | recordPtr (fields : List Field)
  | invalid
deriving DecidableEq, Repr

/-- Modelled from the spec: the error returned by the entry point — the fatal
invalid-target precondition violation, or the aggregated composite error. -/
inductive LoadError where
  | invalidTarget
  | agg (e : AggErr)
deriving DecidableEq, Repr

/-- Modelled from the spec: the `LoadFrom` entry point. An invalid target
fails immediately with `InvalidTarget`, before any traversal and with no field
modified; otherwise the record is traversed and the aggregated error (or
success, `none`) is returned together with the updated record. -/
def LoadFrom (src : Provider) (t : Target) (o : Options) : Target × Option LoadError :=
  match t with
  | .invalid => (Target.invalid, some LoadError.invalidTarget)
  | .recordPtr fs =>
    let r := loadFields o src fs
    (Target.recordPtr r.1, if r.2.isNil then none else some (LoadError.agg r.2))

end Env

namespace Assert

/-- A Go error value as the `assert` package sees it: a leaf error or a
wrapping error exposing `Unwrap`. Each node carries a dynamic-type identifier
(used by `errors.As`) and a payload identifying the value (used by the
equality check inside `errors.Is`). A Go `error` interface value that may be
nil is modelled as `Option GoError`. -/
inductive GoError where
  | base (tyId val : Nat)
  | wrap (tyId val : Nat) (inner : GoError)
deriving DecidableEq, Repr

/-- A Go `any` (empty-interface) value as passed in `formatAndArgs` and as a
formatting argument: a string, an integer, an error interface value, a type
target (for `errors.As`), or any other non-string dynamic type. -/
inductive GoAny where
  | str (s : String)
  | int (i : Int)
  | errOpt (e : Option GoError)
  | ty (tyId : Nat)
  | other
deriving DecidableEq, Repr

/-- Whether a `GoAny` value's dynamic type is `string` — the condition under
which the type assertion `customFormatAndArgs[0].(string)` in `fail`
succeeds. -/
def GoAny.isString : GoAny → Bool
  | .str _ => true
  | _ => false

/-- The `Parameter` type parameter of the assertions: `E` selects
`TB.Errorf` (test continues), `F` selects `TB.Fatalf` (test stops). -/
inductive Param where
  | E
  | F
deriving DecidableEq, Repr

/-- One call to a `TB` formatting method: the format string and its
variadic arguments. -/
structure FmtCall where
  format : String
  args : List GoAny
deriving DecidableEq, Repr

/-- The observable state of a `TB`: the sequence of `Errorf` calls and the
sequence of `Fatalf` calls made on it, each in order. -/
structure TBState where
  errorfCalls : List FmtCall
  fatalfCalls : List FmtCall
deriving DecidableEq, Repr

/-- A fresh `TB` on which no method has been called. -/
def freshTB : TBState := ⟨[], []⟩

/-- `Parameter.method`: the `TB` method a parameter selects — `E` records an
`Errorf` call, `F` records a `Fatalf` call. -/
def Param.callMethod : Param → TBState → FmtCall → TBState
  | .E, t, c => { t with errorfCalls := t.errorfCalls ++ [c] }
  | .F, t, c => { t with fatalfCalls := t.fatalfCalls ++ [c] }

/-- `reflect.DeepEqual` restricted to the comparable value universe the
assertions are used with here: structural (decidable) equality. -/
def deepEqual {V : Type} [DecidableEq V] (a b : V) : Bool :=
  a = b

/-- `fail` from `assert.go`: if `customFormatAndArgs` is non-empty, its first
element replaces the format via the type assertion `.(string)` — panicking
(modelled as `Except.error`) when that element is not a string — and the
remaining elements replace the args; then the method selected by the
parameter is called. -/
def fail (p : Param) (t : TBState) (customFormatAndArgs : List GoAny)
    (format : String) (args : List GoAny) : Except String TBState :=
  match customFormatAndArgs with
  | [] => .ok (p.callMethod t ⟨format, args⟩)
  | c :: rest =>
    match c with
    | .str s => .ok (p.callMethod t ⟨s, rest⟩)
    | _ => .error "interface conversion: first element is not a string"

/-- `Equal` from `assert.go`: asserts that `got` and `want` are equal per
`reflect.DeepEqual`; on inequality it fails with format
`got %v; want %v` and arguments `got, want`. `enc` embeds the generic values
into the `any` universe for formatting. -/
def Equal {V : Type} [DecidableEq V] (enc : V → GoAny) (p : Param) (t : TBState)
    (got want : V) (formatAndArgs : List GoAny) : Except String TBState :=
  if deepEqual got want then .ok t
  else fail p t formatAndArgs "got %v; want %v" [enc got, enc want]

/-- `NoErr` from `assert.go`: asserts that `err` is nil; on a non-nil error it
fails with format `got %v; want no error` and argument `err`. -/
def NoErr (p : Param) (t : TBState) (err : Option GoError)
    (formatAndArgs : List GoAny) : Except String TBState :=
  match err with
  | none => .ok t
  | some _ => fail p t formatAndArgs "got %v; want no error" [GoAny.errOpt err]

/-- `errors.Is` on the unwrap chain: true when some error in `err`'s chain
equals `target` (with the standard nil-target special case). -/
def chainContains (tgt : GoError) : GoError → Bool
  | .base ty v => GoError.base ty v = tgt
  | .wrap ty v inner => GoError.wrap ty v inner = tgt || chainContains tgt inner

/-- `errors.Is(err, target)` over the modelled error universe. -/
def errorsIs : Option GoError → Option GoError → Bool
  | none, none => true
  | none, some _ => false
  | some _, none => false
  | some e, some tgt => chainContains tgt e

/-- `errors.As` on the unwrap chain: true when some error in the chain has the
target's dynamic type. -/
def chainHasTy (tyId : Nat) : GoError → Bool
  | .base ty _ => ty = tyId
  | .wrap ty _ inner => ty = tyId || chainHasTy tyId inner

/-- `errors.As(err, target)` over the modelled error universe, with the target
identified by its pointed-to dynamic type. -/
def errorsAs (err : Option GoError) (tyId : Nat) : Bool :=
  match err with
  | none => false
  | some e => chainHasTy tyId e

/-- `IsErr` from `assert.go`: asserts `errors.Is(err, target)`; on failure the
format is `got %v; want %v` with arguments `err, target`. -/
def IsErr (p : Param) (t : TBState) (err target : Option GoError)
    (formatAndArgs : List GoAny) : Except String TBState :=
  if errorsIs err target then .ok t
  else fail p t formatAndArgs "got %v; want %v" [GoAny.errOpt err, GoAny.errOpt target]

/-- `AsErr` from `assert.go`: asserts `errors.As(err, target)`; on failure the
format is `got %T; want %T` with arguments `err, target`. -/
def AsErr (p : Param) (t : TBState) (err : Option GoError) (targetTy : Nat)
    (formatAndArgs : List GoAny) : Except String TBState :=
  if errorsAs err targetTy then .ok t
  else fail p t formatAndArgs "got %T; want %T" [GoAny.errOpt err, GoAny.ty targetTy]

end Assert

namespace Env

/-- The "not set" key a field contributes to the composite error, if any. -/
def notSetKeyOf (o : Options) (src : Provider) (f : Field) : Option String :=
  match resolveField o src f with
  | .notSet k => some k
  | _ => none

/-- The conversion failure a field contributes to the composite error, if any. -/
def convFailOf (o : Options) (src : Provider) (f : Field) : Option (String × String × Ty) :=
  match resolveField o src f with
  | .convFail k raw ty => some (k, raw, ty)
  | _ => none

/-- Whether an outcome is a field-level failure. -/
def Outcome.isFailure : Outcome → Bool
  | .notSet _ => true
  | .convFail _ _ _ => true
  | _ => false

/-- Whether an outcome writes a value into the field. -/
def Outcome.isWrite : Outcome → Bool
  | .write _ => true
  | _ => false

theorem loadFields_fst (o : Options) (src : Provider) (fs : List Field) :
    (loadFields o src fs).1 = fs.map (fun f => applyOutcome f (resolveField o src f)) := by
  induction fs with
  | nil => rfl
  | cons f fs ih =>
    simp only [loadFields]
    cases h : resolveField o src f <;> simp [applyOutcome, h, ih]

theorem loadFields_notSetKeys (o : Options) (src : Provider) (fs : List Field) :
    (loadFields o src fs).2.notSetKeys = fs.filterMap (notSetKeyOf o src) := by
  induction fs with
  | nil => rfl
  | cons f fs ih =>
    simp only [loadFields, List.filterMap_cons]
    cases h : resolveField o src f <;> simp [notSetKeyOf, h, ih]

theorem loadFields_convFails (o : Options) (src : Provider) (fs : List Field) :
    (loadFields o src fs).2.convFails = fs.filterMap (convFailOf o src) := by
  induction fs with
  | nil => rfl
  | cons f fs ih =>
    simp only [loadFields, List.filterMap_cons]
    cases h : resolveField o src f <;> simp [convFailOf, h, ih]

theorem loadFields_isNil_iff (o : Options) (src : Provider) (fs : List Field) :
    (loadFields o src fs).2.isNil = true ↔
      ∀ f ∈ fs, (resolveField o src f).isFailure = false := by
  induction fs with
  | nil => simp [loadFields, emptyErr, AggErr.isNil]
  | cons f fs ih =>
    simp only [loadFields]
    cases h : resolveField o src f <;>
      simp [AggErr.isNil, Outcome.isFailure, h, ih, AggErr.isNil] <;>
      simp [AggErr.isNil] at ih <;>
      [skip; skip] <;> tauto

end Env

/-- C8: a call whose target is anything other than an addressable record
(struct) pointer returns the InvalidTarget error immediately, before any
traversal, and leaves the target unmodified — no partial binding occurs. -/
theorem claim_C8_invalid_target (src : Env.Provider) (o : Env.Options) :
    Env.LoadFrom src Env.Target.invalid o =
      (Env.Target.invalid, some Env.LoadError.invalidTarget) := rfl

/-- C2: in one binding call all field-level failures are accumulated, never
propagated early: every field is visited and resolved independently (the
result record is the pointwise application of each field's own outcome), the
"not set" key list and the conversion-failure list of the composite error are
exactly the failures of the fields in traversal order, the composite error is
non-nil iff at least one field failed, and every required-but-absent key's
name appears in the one returned error's key list. -/
theorem claim_C2_error_accumulation (o : Env.Options) (src : Env.Provider)
    (fs : List Env.Field) :
    (Env.loadFields o src fs).1 =
        fs.map (fun f => Env.applyOutcome f (Env.resolveField o src f)) ∧
    (Env.loadFields o src fs).2.notSetKeys = fs.filterMap (Env.notSetKeyOf o src) ∧
    (Env.loadFields o src fs).2.convFails = fs.filterMap (Env.convFailOf o src) ∧
    ((Env.loadFields o src fs).2.isNil = false ↔
        ∃ f ∈ fs, (Env.resolveField o src f).isFailure = true) ∧
    (∀ f ∈ fs, ∀ k, Env.resolveField o src f = Env.Outcome.notSet k →
        k ∈ (Env.loadFields o src fs).2.notSetKeys) := by
  refine ⟨Env.loadFields_fst o src fs, Env.loadFields_notSetKeys o src fs,
    Env.loadFields_convFails o src fs, ?_, ?_⟩
  · have h := Env.loadFields_isNil_iff o src fs
    constructor
    · intro hfalse
      by_contra hno
      push_neg at hno
      have : ∀ f ∈ fs, (Env.resolveField o src f).isFailure = false := by
        intro f hf
        have := hno f hf
        simpa using this
      rw [h.2 this] at hfalse
      exact absurd hfalse (by decide)
    · intro ⟨f, hf, hfail⟩
      cases hnil : (Env.loadFields o src fs).2.isNil with
      | false => rfl
      | true =>
        have := h.1 hnil f hf
        rw [hfail] at this
        exact absurd this (by simp)
  · intro f hf k hk
    rw [Env.loadFields_notSetKeys o src fs]
    exact List.mem_filterMap.2 ⟨f, hf, by simp [Env.notSetKeyOf, hk]⟩

/-- C2 witness: a record with two required fields whose keys are both absent
yields a non-nil composite error listing both keys in traversal order. -/
theorem claim_C2_error_accumulation_witness :
    (Env.loadFields {} (Env.mapProvider [])
        [{ key := "HOST", required := true, ty := Env.Ty.base Env.BaseTy.str,
           value := Env.Value.base (Env.BaseVal.str "") },
         { key := "PORT", required := true, ty := Env.Ty.base Env.BaseTy.int,
           value := Env.Value.base (Env.BaseVal.int 0) }]).2.notSetKeys =
      ["HOST", "PORT"] := by
  have h := claim_C2_error_accumulation {} (Env.mapProvider [])
    [{ key := "HOST", required := true, ty := Env.Ty.base Env.BaseTy.str,
       value := Env.Value.base (Env.BaseVal.str "") },
     { key := "PORT", required := true, ty := Env.Ty.base Env.BaseTy.int,
       value := Env.Value.base (Env.BaseVal.int 0) }]
  rw [h.2.1]
  decide

/-- C3: a field whose key is absent from the source, with no default, outside
strict mode and not required, is left exactly as it was — its outcome is
`keep`, applying that outcome does not change the field, and it contributes
neither a "not set" key nor a conversion failure to the composite error;
moreover for every field at most one of {value written, failure recorded}
ever happens. -/
theorem claim_C3_untouched_field (o : Env.Options) (src : Env.Provider) (f : Env.Field)
    (habsent : src (o.keyPrefix ++ f.key) = none)
    (hdef : f.defaultVal = none)
    (hstrict : o.strictMode = false)
    (hreq : f.required = false) :
    Env.resolveField o src f = Env.Outcome.keep ∧
    Env.applyOutcome f (Env.resolveField o src f) = f ∧
    Env.notSetKeyOf o src f = none ∧
    Env.convFailOf o src f = none ∧
    (∀ g : Env.Field, ¬((Env.resolveField o src g).isWrite = true ∧
        (Env.resolveField o src g).isFailure = true)) := by
  have hk : Env.resolveField o src f = Env.Outcome.keep := by
    simp [Env.resolveField, habsent, hdef, hstrict, hreq]
  refine ⟨hk, by rw [hk]; rfl, by simp [Env.notSetKeyOf, hk], by simp [Env.convFailOf, hk], ?_⟩
  intro g hg
  obtain ⟨hw, hfa⟩ := hg
  cases h : Env.resolveField o src g <;>
    rw [h] at hw hfa <;> simp [Env.Outcome.isWrite, Env.Outcome.isFailure] at hw hfa

/-- C3 witness: a concrete non-required field with no default and an absent
key keeps its pre-call value. -/
theorem claim_C3_untouched_field_witness :
    Env.resolveField {} (Env.mapProvider [("OTHER", "5")])
      { key := "PORT", ty := Env.Ty.base Env.BaseTy.int,
        value := Env.Value.base (Env.BaseVal.int 8080) } = Env.Outcome.keep :=
  (claim_C3_untouched_field {} (Env.mapProvider [("OTHER", "5")])
    { key := "PORT", ty := Env.Ty.base Env.BaseTy.int,
      value := Env.Value.base (Env.BaseVal.int 8080) }
    (by decide) rfl rfl rfl).1

/-- C6: under strict mode, a field lacking an explicit default whose key is
absent from the source fails with a NotSet outcome naming its effective key —
whatever (pre-initialized) value the field currently holds — and any binding
pass over a record containing such a field reports that key in its composite
error and is not successful. -/
theorem claim_C6_strict_mode (o : Env.Options) (src : Env.Provider) (f : Env.Field)
    (hstrict : o.strictMode = true)
    (hdef : f.defaultVal = none)
    (habsent : src (o.keyPrefix ++ f.key) = none) :
    (∀ v : Env.Value, Env.resolveField o src { f with value := v } =
        Env.Outcome.notSet (o.keyPrefix ++ f.key)) ∧
    (∀ fs : List Env.Field, f ∈ fs →
      (o.keyPrefix ++ f.key) ∈ (Env.loadFields o src fs).2.notSetKeys ∧
      (Env.loadFields o src fs).2.isNil = false) := by
  have hk : Env.resolveField o src f = Env.Outcome.notSet (o.keyPrefix ++ f.key) := by
    simp [Env.resolveField, habsent, hdef, hstrict]
  refine ⟨?_, ?_⟩
  · intro v
    have : Env.resolveField o src { f with value := v } = Env.resolveField o src f := rfl
    rw [this, hk]
  · intro fs hf
    constructor
    · rw [Env.loadFields_notSetKeys o src fs]
      exact List.mem_filterMap.2 ⟨f, hf, by simp [Env.notSetKeyOf, hk]⟩
    · cases hnil : (Env.loadFields o src fs).2.isNil with
      | false => rfl
      | true =>
        have := (Env.loadFields_isNil_iff o src fs).1 hnil f hf
        rw [hk] at this
        exact absurd this (by simp [Env.Outcome.isFailure])

/-- C6 witness: under strict mode a pre-initialized field without a default
and with an absent key still fails as not set. -/
theorem claim_C6_strict_mode_witness :
    Env.resolveField { strictMode := true } (Env.mapProvider [])
      { key := "HOST", ty := Env.Ty.base Env.BaseTy.str,
        value := Env.Value.base (Env.BaseVal.str "localhost") } =
      Env.Outcome.notSet "HOST" :=
  (claim_C6_strict_mode { strictMode := true } (Env.mapProvider [])
    { key := "HOST", ty := Env.Ty.base Env.BaseTy.str,
      value := Env.Value.base (Env.BaseVal.str "localhost") }
    rfl rfl rfl).1 (Env.Value.base (Env.BaseVal.str "localhost"))

namespace Env

/-- The Field Resolver never reads the field's current value: overwriting the
value leaves the outcome unchanged. -/
theorem resolveField_set_value (o : Options) (src : Provider) (f : Field) (v : Value) :
    resolveField o src { f with value := v } = resolveField o src f := rfl

/-- Re-binding a record whose pass had no failures changes nothing: every
field resolves to the same outcome again and the pass reports no failures. -/
theorem loadFields_stable (o : Options) (src : Provider) (fs : List Field)
    (h : ∀ f ∈ fs, (resolveField o src f).isFailure = false) :
    loadFields o src ((loadFields o src fs).1) = ((loadFields o src fs).1, emptyErr) := by
  induction fs with
  | nil => rfl
  | cons f fs ih =>
    have hf := h f (List.mem_cons_self f fs)
    have ih' := ih (fun g hg => h g (List.mem_cons_of_mem f hg))
    cases hout : resolveField o src f with
    | keep =>
      have h1 : loadFields o src (f :: fs) =
          (f :: (loadFields o src fs).1, (loadFields o src fs).2) := by
        simp [loadFields, hout]
      rw [h1]
      simp [loadFields, hout, ih']
    | write v =>
      have h1 : loadFields o src (f :: fs) =
          ({ f with value := v } :: (loadFields o src fs).1, (loadFields o src fs).2) := by
        simp [loadFields, hout]
      rw [h1]
      have h2 : resolveField o src { f with value := v } = Outcome.write v := by
        rw [resolveField_set_value, hout]
      simp [loadFields, h2, ih']
    | notSet k => rw [hout] at hf; simp [Outcome.isFailure] at hf
    | convFail k raw ty => rw [hout] at hf; simp [Outcome.isFailure] at hf

end Env

/-- C7: binding is idempotent after a successful pass — when a bind call over
a record succeeds, binding the resulting record again from the same source
with the same options returns exactly the same record (every field resolved
from the source gets the same value again, every field that fell back keeps
the value it holds) and succeeds with the empty composite error. -/
theorem claim_C7_idempotence (o : Env.Options) (src : Env.Provider) (fs : List Env.Field)
    (hok : (Env.loadFields o src fs).2.isNil = true) :
    Env.loadFields o src ((Env.loadFields o src fs).1) =
      ((Env.loadFields o src fs).1, Env.emptyErr) :=
  Env.loadFields_stable o src fs ((Env.loadFields_isNil_iff o src fs).1 hok)

/-- C7 witness: a two-field record — one field resolved from the source, one
falling back to its pre-existing value — re-binds to exactly itself. -/
theorem claim_C7_idempotence_witness :
    Env.loadFields {} (Env.mapProvider [("PORT", "8080")])
      ((Env.loadFields {} (Env.mapProvider [("PORT", "8080")])
        [{ key := "PORT", ty := Env.Ty.base Env.BaseTy.int,
           value := Env.Value.base (Env.BaseVal.int 0) },
         { key := "HOST", ty := Env.Ty.base Env.BaseTy.str,
           value := Env.Value.base (Env.BaseVal.str "localhost") }]).1) =
      ((Env.loadFields {} (Env.mapProvider [("PORT", "8080")])
        [{ key := "PORT", ty := Env.Ty.base Env.BaseTy.int,
           value := Env.Value.base (Env.BaseVal.int 0) },
         { key := "HOST", ty := Env.Ty.base Env.BaseTy.str,
           value := Env.Value.base (Env.BaseVal.str "localhost") }]).1, Env.emptyErr) :=
  claim_C7_idempotence {} (Env.mapProvider [("PORT", "8080")])
    [{ key := "PORT", ty := Env.Ty.base Env.BaseTy.int,
       value := Env.Value.base (Env.BaseVal.int 0) },
     { key := "HOST", ty := Env.Ty.base Env.BaseTy.str,
       value := Env.Value.base (Env.BaseVal.str "localhost") }] (by decide)

/-- C1: for a record whose leaf fields all carry distinct annotations with the
required option (and no expand option), if the source contains every field's
prefixed key — with text convertible to the field's semantic type, which the
conclusion's "converted source value" presupposes — then binding succeeds
(nil composite error) and each field of the result holds exactly the value
converted from the source's text for its key. -/
theorem claim_C1_all_required_present (o : Env.Options) (src : Env.Provider)
    (fs : List Env.Field)
    (hreq : ∀ f ∈ fs, f.required = true)
    (hexp : ∀ f ∈ fs, f.expandOpt = false)
    (hkeys : (fs.map Env.Field.key).Nodup)
    (hpresent : ∀ f ∈ fs, (src (o.keyPrefix ++ f.key)).isSome = true)
    (hconv : ∀ f ∈ fs,
      ((src (o.keyPrefix ++ f.key)).bind (Env.convert o.sliceSep f.ty)).isSome = true) :
    (Env.loadFields o src fs).2.isNil = true ∧
    List.Forall₂ (fun f f' => ∃ raw v, src (o.keyPrefix ++ f.key) = some raw ∧
        Env.convert o.sliceSep f.ty raw = some v ∧ f' = { f with value := v })
      fs (Env.loadFields o src fs).1 := by
  induction fs with
  | nil => exact ⟨rfl, List.Forall₂.nil⟩
  | cons f fs ih =>
    obtain ⟨raw, hraw⟩ := Option.isSome_iff_exists.1 (hpresent f (List.mem_cons_self f fs))
    have hc := hconv f (List.mem_cons_self f fs)
    rw [hraw, Option.some_bind] at hc
    obtain ⟨v, hv⟩ := Option.isSome_iff_exists.1 hc
    have hout : Env.resolveField o src f = Env.Outcome.write v := by
      simp [Env.resolveField, Env.resolveRaw, hraw, hexp f (List.mem_cons_self f fs), hv]
    have ihres := ih (fun g hg => hreq g (List.mem_cons_of_mem f hg))
      (fun g hg => hexp g (List.mem_cons_of_mem f hg))
      (by rw [List.map_cons] at hkeys; exact (List.nodup_cons.1 hkeys).2)
      (fun g hg => hpresent g (List.mem_cons_of_mem f hg))
      (fun g hg => hconv g (List.mem_cons_of_mem f hg))
    have h1 : Env.loadFields o src (f :: fs) =
        ({ f with value := v } :: (Env.loadFields o src fs).1,
          (Env.loadFields o src fs).2) := by
      simp [Env.loadFields, hout]
    rw [h1]
    exact ⟨ihres.1, List.Forall₂.cons ⟨raw, v, hraw, hv, rfl⟩ ihres.2⟩

/-- C1 witness: the three-field record of the repository's provider tests —
`FOO`, `BAR`, `BAZ`, all required ints, all present — binds successfully. -/
theorem claim_C1_all_required_present_witness :
    (Env.loadFields {} (Env.mapProvider [("FOO", "1"), ("BAR", "2"), ("BAZ", "3")])
      [{ key := "FOO", required := true, ty := Env.Ty.base Env.BaseTy.int,
         value := Env.Value.base (Env.BaseVal.int 0) },
       { key := "BAR", required := true, ty := Env.Ty.base Env.BaseTy.int,
         value := Env.Value.base (Env.BaseVal.int 0) },
       { key := "BAZ", required := true, ty := Env.Ty.base Env.BaseTy.int,
         value := Env.Value.base (Env.BaseVal.int 0) }]).2.isNil = true :=
  (claim_C1_all_required_present {}
    (Env.mapProvider [("FOO", "1"), ("BAR", "2"), ("BAZ", "3")])
    [{ key := "FOO", required := true, ty := Env.Ty.base Env.BaseTy.int,
       value := Env.Value.base (Env.BaseVal.int 0) },
     { key := "BAR", required := true, ty := Env.Ty.base Env.BaseTy.int,
       value := Env.Value.base (Env.BaseVal.int 0) },
     { key := "BAZ", required := true, ty := Env.Ty.base Env.BaseTy.int,
       value := Env.Value.base (Env.BaseVal.int 0) }]
    (by decide) (by decide) (by decide) (by decide) (by decide)).1

namespace Env

/-- Element-wise conversion: when every substring converts to the
corresponding element value, `convertParts` succeeds with exactly those
values in order. -/
theorem convertParts_eq_of_forall2 (b : BaseTy) :
    ∀ {ps : List String} {vs : List BaseVal},
      List.Forall₂ (fun p v => convertBase b p = some v) ps vs →
      convertParts b ps = some vs := by
  intro ps vs h
  induction h with
  | nil => rfl
  | cons h1 _ ih => simp [convertParts, h1, ih]

end Env

/-- C4: a sequence-typed field's raw text is split on the configured
separator and each substring converts independently into the element type,
preserving order — whenever each substring converts to a value, the sequence
field converts to exactly those values in order; the spec's example with
separator `;` and raw text `8080;8081;8082` yields the ordered sequence
[8080, 8081, 8082]; and an empty raw value converts to the empty sequence for
every separator and element type, not an error. -/
theorem claim_C4_sequence_conversion :
    (∀ (sep : String) (b : Env.BaseTy) (s : String) (vs : List Env.BaseVal), s ≠ "" →
      List.Forall₂ (fun p v => Env.convertBase b p = some v) (Env.goSplit sep s) vs →
      Env.convert sep (Env.Ty.seq b) s = some (Env.Value.seq vs)) ∧
    Env.goSplit ";" "8080;8081;8082" = ["8080", "8081", "8082"] ∧
    Env.convert ";" (Env.Ty.seq Env.BaseTy.int) "8080;8081;8082" =
      some (Env.Value.seq
        [Env.BaseVal.int 8080, Env.BaseVal.int 8081, Env.BaseVal.int 8082]) ∧
    (∀ (sep : String) (b : Env.BaseTy),
      Env.convert sep (Env.Ty.seq b) "" = some (Env.Value.seq [])) := by
  refine ⟨?_, by decide, by decide, fun sep b => by simp [Env.convert]⟩
  intro sep b s vs hs h
  simp only [Env.convert, if_neg hs]
  rw [Env.convertParts_eq_of_forall2 b h]
  rfl

/-- C4 witness: the spec's separator example, obtained through the general
element-wise part of the claim theorem. -/
theorem claim_C4_sequence_conversion_witness :
    Env.convert ";" (Env.Ty.seq Env.BaseTy.int) "8080;8081;8082" =
      some (Env.Value.seq
        [Env.BaseVal.int 8080, Env.BaseVal.int 8081, Env.BaseVal.int 8082]) :=
  claim_C4_sequence_conversion.1 ";" Env.BaseTy.int "8080;8081;8082"
    [Env.BaseVal.int 8080, Env.BaseVal.int 8081, Env.BaseVal.int 8082]
    (by decide)
    (List.Forall₂.cons (by decide)
      (List.Forall₂.cons (by decide)
        (List.Forall₂.cons (by decide) List.Forall₂.nil)))

namespace Env

/-- Rebuilding a string from its own character list is the identity. -/
theorem strMk_data (s : String) : String.mk s.data = s := rfl

/-- Characters before the first closing brace of a bracketed token: when the
name holds no closing brace, `takeWhile` recovers exactly the name. -/
theorem takeWhile_name (name rest : List Char) (h : rbrace ∉ name) :
    (name ++ rbrace :: rest).takeWhile (fun x => x != rbrace) = name := by
  induction name with
  | nil => simp
  | cons c cs ih =>
    have hc : c ≠ rbrace := fun e => h (e ▸ List.mem_cons_self c cs)
    simp only [List.cons_append, List.takeWhile_cons]
    simp [hc, ih (fun hm => h (List.mem_cons_of_mem c hm))]

/-- Characters from the first closing brace of a bracketed token onward. -/
theorem dropWhile_name (name rest : List Char) (h : rbrace ∉ name) :
    (name ++ rbrace :: rest).dropWhile (fun x => x != rbrace) = rbrace :: rest := by
  induction name with
  | nil => simp
  | cons c cs ih =>
    have hc : c ≠ rbrace := fun e => h (e ▸ List.mem_cons_self c cs)
    simp only [List.cons_append, List.dropWhile_cons]
    simp [hc, ih (fun hm => h (List.mem_cons_of_mem c hm))]

/-- Expansion of the empty input is empty whatever fuel remains. -/
theorem expandAux_nil (src : Provider) (fuel : Nat) :
    expandAux src fuel [] = [] := by
  cases fuel <;> rfl

/-- One expansion step on a bracketed token: the token's name is looked up,
the looked-up text is emitted verbatim (it is never re-scanned), and
expansion continues after the closing brace. -/
theorem expandAux_brace_step (src : Provider) (fuel : Nat) (name rest : List Char)
    (h : rbrace ∉ name) :
    expandAux src (fuel + 1) (dollar :: lbrace :: (name ++ rbrace :: rest)) =
      (lookupD src (String.mk name)).data ++ expandAux src fuel rest := by
  rw [expandAux]
  rw [dropWhile_name name rest h, takeWhile_name name rest h]
  simp

end Env

/-- C5: with the expand option, dollar tokens in a present raw value are
substituted from the same source before type conversion, in a single pass.
In general, a whole bracketed token expands to exactly the source's text for
its name — emitted verbatim, never re-scanned — and to the empty string when
the name is absent (`lookupD`); concretely, `localhost:${PORT}` with source
entry PORT=8080 expands to `localhost:8080` (bracketed and bare form), a
token whose looked-up value itself holds a dollar token is not re-expanded,
and a resolver pass on an expand-annotated field converts the expanded
text. -/
theorem claim_C5_expansion (src : Env.Provider) :
    (∀ name : List Char, Env.rbrace ∉ name →
      Env.expandStr src
          (String.mk (Env.dollar :: Env.lbrace :: (name ++ [Env.rbrace]))) =
        Env.lookupD src (String.mk name)) ∧
    Env.expandStr (Env.mapProvider [("PORT", "8080")]) "localhost:${PORT}" =
      "localhost:8080" ∧
    Env.expandStr (Env.mapProvider [("PORT", "8080")]) "localhost:$PORT" =
      "localhost:8080" ∧
    Env.expandStr (Env.mapProvider []) "a${MISSING}b" = "ab" ∧
    Env.expandStr (Env.mapProvider [("A", "$B"), ("B", "x")]) "${A}" = "$B" ∧
    Env.resolveField {} (Env.mapProvider [("ADDR", "localhost:${PORT}"), ("PORT", "8080")])
        { key := "ADDR", expandOpt := true, ty := Env.Ty.base Env.BaseTy.str,
          value := Env.Value.base (Env.BaseVal.str "") } =
      Env.Outcome.write (Env.Value.base (Env.BaseVal.str "localhost:8080")) := by
  refine ⟨?_, by decide, by decide, by decide, by decide, by decide⟩
  intro name h
  show String.mk (Env.expandAux src _ _) = _
  have hlen : (String.mk (Env.dollar :: Env.lbrace :: (name ++ [Env.rbrace]))).data.length
      = (name.length + 2) + 1 := by
    simp
  rw [hlen, Env.expandAux_brace_step src (name.length + 2) name [] h,
    Env.expandAux_nil, List.append_nil, Env.strMk_data]

/-- C5 witness: the bracketed general part of the claim theorem applied to the
spec's PORT example. -/
theorem claim_C5_expansion_witness :
    Env.expandStr (Env.mapProvider [("PORT", "8080")])
        (String.mk (Env.dollar :: Env.lbrace ::
          (['P', 'O', 'R', 'T'] ++ [Env.rbrace]))) =
      Env.lookupD (Env.mapProvider [("PORT", "8080")]) (String.mk ['P', 'O', 'R', 'T']) :=
  (claim_C5_expansion (Env.mapProvider [("PORT", "8080")])).1
    ['P', 'O', 'R', 'T'] (by decide)

/-- C9: `assert.Equal` reports a failure exactly when the two values are not
DeepEqual: when they are equal the `TB` is returned untouched (neither
`Errorf` nor `Fatalf` is called); when they are not, the method selected by
the type parameter is called with the built-in format and the two values —
and the parameter selects the reporting method exactly: `E` appends an
`Errorf` call, `F` appends a `Fatalf` call. -/
theorem claim_C9_equal_assertion (V : Type) [DecidableEq V] (enc : V → Assert.GoAny)
    (p : Assert.Param) (t : Assert.TBState) (got want : V) :
    (Assert.deepEqual got want = true →
      Assert.Equal enc p t got want [] = Except.ok t) ∧
    (Assert.deepEqual got want = false →
      Assert.Equal enc p t got want [] =
        Except.ok (p.callMethod t ⟨"got %v; want %v", [enc got, enc want]⟩)) ∧
    (∀ (t' : Assert.TBState) (c : Assert.FmtCall),
      Assert.Param.E.callMethod t' c =
        { t' with errorfCalls := t'.errorfCalls ++ [c] } ∧
      Assert.Param.F.callMethod t' c =
        { t' with fatalfCalls := t'.fatalfCalls ++ [c] }) := by
  refine ⟨fun h => ?_, fun h => ?_, fun t' c => ⟨rfl, rfl⟩⟩
  · simp [Assert.Equal, h]
  · simp [Assert.Equal, h, Assert.fail]

/-- C9 witness: equal integers leave a fresh TB untouched; unequal integers
with parameter E append exactly one Errorf call with the built-in format. -/
theorem claim_C9_equal_assertion_witness :
    Assert.Equal Assert.GoAny.int Assert.Param.E Assert.freshTB (1 : Int) 1 [] =
      Except.ok Assert.freshTB ∧
    Assert.Equal Assert.GoAny.int Assert.Param.E Assert.freshTB (1 : Int) 2 [] =
      Except.ok (Assert.Param.E.callMethod Assert.freshTB
        ⟨"got %v; want %v", [Assert.GoAny.int 1, Assert.GoAny.int 2]⟩) :=
  ⟨(claim_C9_equal_assertion Int Assert.GoAny.int Assert.Param.E Assert.freshTB 1 1).1
      (by decide),
   (claim_C9_equal_assertion Int Assert.GoAny.int Assert.Param.E Assert.freshTB 1 2).2.1
      (by decide)⟩

/-- C10: on the failure path of each assertion (Equal, NoErr, IsErr, AsErr),
a non-empty `formatAndArgs` whose first element is not a string makes the
assertion panic (the failed `.(string)` type assertion in `fail`, modelled as
`Except.error`), while an empty `formatAndArgs` never panics and reports with
the assertion's built-in format string and its own arguments. -/
theorem claim_C10_fail_behavior (V : Type) [DecidableEq V] (enc : V → Assert.GoAny)
    (p : Assert.Param) (t : Assert.TBState) (head : Assert.GoAny)
    (rest : List Assert.GoAny) (hhead : head.isString = false) :
    (∀ (format : String) (args : List Assert.GoAny),
      Assert.fail p t (head :: rest) format args =
        Except.error "interface conversion: first element is not a string") ∧
    (∀ (format : String) (args : List Assert.GoAny),
      Assert.fail p t [] format args = Except.ok (p.callMethod t ⟨format, args⟩)) ∧
    (∀ got want : V, Assert.deepEqual got want = false →
      Assert.Equal enc p t got want (head :: rest) =
        Except.error "interface conversion: first element is not a string" ∧
      Assert.Equal enc p t got want [] =
        Except.ok (p.callMethod t ⟨"got %v; want %v", [enc got, enc want]⟩)) ∧
    (∀ e : Assert.GoError,
      Assert.NoErr p t (some e) (head :: rest) =
        Except.error "interface conversion: first element is not a string" ∧
      Assert.NoErr p t (some e) [] =
        Except.ok (p.callMethod t
          ⟨"got %v; want no error", [Assert.GoAny.errOpt (some e)]⟩)) ∧
    (∀ err target : Option Assert.GoError, Assert.errorsIs err target = false →
      Assert.IsErr p t err target (head :: rest) =
        Except.error "interface conversion: first element is not a string" ∧
      Assert.IsErr p t err target [] =
        Except.ok (p.callMethod t
          ⟨"got %v; want %v", [Assert.GoAny.errOpt err, Assert.GoAny.errOpt target]⟩)) ∧
    (∀ (err : Option Assert.GoError) (tyId : Nat), Assert.errorsAs err tyId = false →
      Assert.AsErr p t err tyId (head :: rest) =
        Except.error "interface conversion: first element is not a string" ∧
      Assert.AsErr p t err tyId [] =
        Except.ok (p.callMethod t
          ⟨"got %T; want %T", [Assert.GoAny.errOpt err, Assert.GoAny.ty tyId]⟩)) := by
  have hfail : ∀ (format : String) (args : List Assert.GoAny),
      Assert.fail p t (head :: rest) format args =
        Except.error "interface conversion: first element is not a string" := by
    intro format args
    cases head <;> simp [Assert.fail, Assert.GoAny.isString] at hhead ⊢
  refine ⟨hfail, fun format args => rfl, ?_, ?_, ?_, ?_⟩
  · intro got want h
    exact ⟨by simp [Assert.Equal, h, hfail], by simp [Assert.Equal, h, Assert.fail]⟩
  · intro e
    exact ⟨hfail "got %v; want no error" [Assert.GoAny.errOpt (some e)], rfl⟩
  · intro err target h
    exact ⟨by simp [Assert.IsErr, h, hfail], by simp [Assert.IsErr, h, Assert.fail]⟩
  · intro err tyId h
    exact ⟨by simp [Assert.AsErr, h, hfail], by simp [Assert.AsErr, h, Assert.fail]⟩

/-- C10 witness: with a failing integer Equal, a non-string first element
panics while an empty list reports with the built-in format. -/
theorem claim_C10_fail_behavior_witness :
    Assert.Equal Assert.GoAny.int Assert.Param.F Assert.freshTB (3 : Int) 4
        [Assert.GoAny.other] =
      Except.error "interface conversion: first element is not a string" ∧
    Assert.Equal Assert.GoAny.int Assert.Param.F Assert.freshTB (3 : Int) 4 [] =
      Except.ok (Assert.Param.F.callMethod Assert.freshTB
        ⟨"got %v; want %v", [Assert.GoAny.int 3, Assert.GoAny.int 4]⟩) :=
  (claim_C10_fail_behavior Int Assert.GoAny.int Assert.Param.F Assert.freshTB
    Assert.GoAny.other [] (by decide)).2.2.1 3 4 (by decide)
